import Mathlib

/-!
Shallow embedding of `csvkit/table.py`: the `Column` and `Table` classes,
CSV import (`Table.from_csv`) and export (`Table.to_csv`), together with a
model of the type-inference engine they depend on
(`csvkit.typeinference.normalize_column_type`, whose module is not part of
the source tree and is therefore modelled from the specification).

Python exceptions are embedded with `Except PyError`; Python `None` cell
values are the `Value.null` sentinel; machine strings are Lean `String`s.
-/

/-- Python exception classes that the embedded code can raise or catch. -/
inductive PyError where
  | indexError
  | keyError
  | valueError
  | attributeError
  | notImplementedError
deriving DecidableEq, Repr

/-- Characters removed by Python `str.strip()` with no argument
(space, tab, newline, carriage return, vertical tab, form feed). -/
def pyIsSpace (c : Char) : Bool :=
  c = ' ' || c = '\t' || c = '\n' || c = '\r' || c = '\x0b' || c = '\x0c'

/-- Python `s.strip()`: remove leading and trailing whitespace. -/
def pyStrip (s : String) : String :=
  String.mk (((s.toList.dropWhile pyIsSpace).reverse.dropWhile pyIsSpace).reverse)

/-- Python `list` indexing: `l[i]` for a non-negative index raises
`IndexError` when the index is out of range. -/
def listIndex (l : List α) (i : Nat) : Except PyError α :=
  match l.get? i with
  | some a => .ok a
  | none => .error .indexError

/-- Decimal digit value of a character. -/
def digitVal (c : Char) : Nat := c.toNat - 48

/-- Value of a list of decimal digit characters. -/
def digitsNat (l : List Char) : Nat := l.foldl (fun a c => a * 10 + digitVal c) 0

/-- Render a natural number zero-padded to a minimum width,
as CPython does inside `isoformat`. -/
def padZ (w : Nat) (n : Nat) : String :=
  let s := toString n
  String.mk (List.replicate (w - s.length) '0') ++ s

/-- Model of Python `datetime.date`: year, month, day. -/
structure PyDate where
  year : Nat
  month : Nat
  day : Nat
deriving DecidableEq, Repr

/-- Model of Python `datetime.time` (microseconds zero and omitted). -/
structure PyTime where
  hour : Nat
  minute : Nat
  second : Nat
deriving DecidableEq, Repr

/-- Model of Python `datetime.datetime` (a date with a time of day). -/
structure PyDateTime where
  datePart : PyDate
  timePart : PyTime
deriving DecidableEq, Repr

/-- Python `date.isoformat()`: `YYYY-MM-DD`. -/
def PyDate.isoformat (d : PyDate) : String :=
  padZ 4 d.year ++ "-" ++ padZ 2 d.month ++ "-" ++ padZ 2 d.day

/-- Python `time.isoformat()` with zero microseconds: `HH:MM:SS`. -/
def PyTime.isoformat (t : PyTime) : String :=
  padZ 2 t.hour ++ ":" ++ padZ 2 t.minute ++ ":" ++ padZ 2 t.second

/-- Python `datetime.isoformat()` with the default `T` separator. -/
def PyDateTime.isoformat (dt : PyDateTime) : String :=
  dt.datePart.isoformat ++ "T" ++ dt.timePart.isoformat

/-- The dynamic type tags a normalized column can carry: the Python types
`bool`, `int`, `float`, `datetime.date`, `datetime.datetime`,
`datetime.time`, `unicode`, and `NoneType` for all-null columns. -/
inductive CellType where
  | bool
  | int
  | float
  | date
  | datetime
  | time
  | unicode
  | noneType
deriving DecidableEq, Repr

/-- A normalized cell value: either the null sentinel (Python `None`) or a
typed scalar. Floats are modelled as exact rationals. -/
inductive Value where
  | null : Value
  | bool : Bool → Value
  | int : Int → Value
  | float : Rat → Value
  | date : PyDate → Value
  | datetime : PyDateTime → Value
  | time : PyTime → Value
  | text : String → Value
deriving DecidableEq, Repr

/-- Split a character list at the first character satisfying `p`; the second
component is `none` when no such character occurs. -/
def splitAtChar (p : Char → Bool) : List Char → List Char × Option (List Char)
  | [] => ([], none)
  | c :: rest =>
    if p c then ([], some rest)
    else
      let r := splitAtChar p rest
      (c :: r.1, r.2)

/-- Consume an optional leading sign, returning the sign and the rest. -/
def parseSign : List Char → Int × List Char
  | '-' :: rest => (-1, rest)
  | '+' :: rest => (1, rest)
  | l => (1, l)

/-- Modelled from the spec: integer parsing for the inference cascade.
Accepts an optional sign followed by one or more decimal digits; rejects
anything with a decimal point or exponent (those fall through to Float). -/
def parseInt? (s : String) : Option Int :=
  let sl := parseSign s.toList
  if !sl.2.isEmpty && sl.2.all Char.isDigit then some (sl.1 * (digitsNat sl.2 : Int))
  else none

/-- Modelled from the spec: float parsing for the inference cascade.
Accepts standard decimal notation with an optional fraction and an optional
scientific-notation exponent; the value is kept as an exact rational. -/
def parseFloat? (s : String) : Option Rat :=
  let sl := parseSign s.toList
  let msplit := splitAtChar (fun c => c = 'e' || c = 'E') sl.2
  let isplit := splitAtChar (fun c => c = '.') msplit.1
  let ipart := isplit.1
  let fpart := (isplit.2).getD []
  if (ipart ++ fpart).isEmpty || !(ipart ++ fpart).all Char.isDigit then none
  else
    let mant : Int := sl.1 * (digitsNat (ipart ++ fpart) : Int)
    match msplit.2 with
    | none => some ((mant : Rat) * (10 : Rat) ^ (-(fpart.length : Int)))
    | some ex =>
      let esl := parseSign ex
      if !esl.2.isEmpty && esl.2.all Char.isDigit then
        some ((mant : Rat) * (10 : Rat) ^ (esl.1 * (digitsNat esl.2 : Int) - (fpart.length : Int)))
      else none

/-- Modelled from the spec: the accepted date pattern (ISO-8601
`YYYY-MM-DD`), with field range validation as `strptime` performs. -/
def parseDate? (s : String) : Option PyDate :=
  match s.toList with
  | [y1, y2, y3, y4, '-', m1, m2, '-', d1, d2] =>
    if [y1, y2, y3, y4, m1, m2, d1, d2].all Char.isDigit then
      let y := digitsNat [y1, y2, y3, y4]
      let m := digitsNat [m1, m2]
      let d := digitsNat [d1, d2]
      if 1 ≤ m ∧ m ≤ 12 ∧ 1 ≤ d ∧ d ≤ 31 then some ⟨y, m, d⟩ else none
    else none
  | _ => none

/-- Modelled from the spec: the accepted time pattern (`HH:MM:SS`),
with field range validation. -/
def parseTime? (s : String) : Option PyTime :=
  match s.toList with
  | [h1, h2, ':', m1, m2, ':', s1, s2] =>
    if [h1, h2, m1, m2, s1, s2].all Char.isDigit then
      let h := digitsNat [h1, h2]
      let m := digitsNat [m1, m2]
      let sec := digitsNat [s1, s2]
      if h ≤ 23 ∧ m ≤ 59 ∧ sec ≤ 59 then some ⟨h, m, sec⟩ else none
    else none
  | _ => none

/-- Modelled from the spec: the accepted datetime pattern (ISO-8601
`YYYY-MM-DDTHH:MM:SS`). -/
def parseDateTime? (s : String) : Option PyDateTime :=
  match splitAtChar (fun c => c = 'T') s.toList with
  | (dpart, some tpart) =>
    match parseDate? (String.mk dpart), parseTime? (String.mk tpart) with
    | some d, some t => some ⟨d, t⟩
    | _, _ => none
  | (_, none) => none

/-- Modelled from the spec: the default set of null-like tokens, matched
case-insensitively (the empty string plus configurable markers). -/
def NULL_TOKENS : List String := ["", "n/a", "none", "-"]

/-- Membership of a raw token in the null-token set (case-insensitive). -/
def isNullToken (s : String) : Bool := NULL_TOKENS.contains s.toLower

/-- Modelled from the spec: tokens read as boolean true (case-insensitive). -/
def TRUE_TOKENS : List String := ["true", "yes", "1", "t"]

/-- Modelled from the spec: tokens read as boolean false (case-insensitive). -/
def FALSE_TOKENS : List String := ["false", "no", "0", "f"]

/-- Boolean candidate parser of the cascade. -/
def parseBoolV (s : String) : Option Value :=
  if TRUE_TOKENS.contains s.toLower then some (Value.bool true)
  else if FALSE_TOKENS.contains s.toLower then some (Value.bool false)
  else none

/-- Integer candidate parser of the cascade. -/
def parseIntV (s : String) : Option Value := (parseInt? s).map Value.int

/-- Float candidate parser of the cascade. -/
def parseFloatV (s : String) : Option Value := (parseFloat? s).map Value.float

/-- Date candidate parser of the cascade. -/
def parseDateV (s : String) : Option Value := (parseDate? s).map Value.date

/-- Datetime candidate parser of the cascade. -/
def parseDateTimeV (s : String) : Option Value := (parseDateTime? s).map Value.datetime

/-- Time candidate parser of the cascade. -/
def parseTimeV (s : String) : Option Value := (parseTime? s).map Value.time

/-- The candidate types in the cascade's precedence order, each with its
parser: Boolean, Integer, Float, Date, DateTime, Time (Text is the total
fallback handled separately). -/
def CANDIDATES : List (CellType × (String → Option Value)) :=
  [(.bool, parseBoolV), (.int, parseIntV), (.float, parseFloatV),
   (.date, parseDateV), (.datetime, parseDateTimeV), (.time, parseTimeV)]

/-- Attempt one candidate on a whole raw column: every non-null token must
parse; null tokens become the null sentinel. -/
def tryCandidate (parse : String → Option Value) (l : List String) : Option (List Value) :=
  l.mapM (fun s => if isNullToken s then some Value.null else parse s)

/-- Run the cascade over the candidate list, falling through to Text. -/
def runCascade (l : List String) : List (CellType × (String → Option Value)) → CellType × List Value
  | [] => (.unicode, l.map (fun s => if isNullToken s then Value.null else Value.text s))
  | (t, p) :: rest =>
    match tryCandidate p l with
    | some vs => (t, vs)
    | none => runCascade l rest

/-- Modelled from the spec: `csvkit.typeinference.normalize_column_type`
(the `typeinference` module is not in the source tree). Given the raw
string tokens of one column, determine the narrowest common type by trying
candidates in precedence order and produce the normalized values; a column
with no non-null token is Null-only, and Text is the universal fallback. -/
def normalize_column_type (l : List String) : CellType × List Value :=
  if l.all isNullToken then (.noneType, l.map (fun _ => Value.null))
  else runCascade l CANDIDATES

/-- A normalized data column: its zero-based position in the owning table,
its header name, its inferred (or asserted) type, and its values
(the Python class subclasses `list`; the list contents are `values`). -/
structure Column where
  index : Nat
  name : String
  type : CellType
  values : List Value
deriving DecidableEq, Repr

/-- The `normal_type` argument of `Column.__init__`: either the
`InvalidType` sentinel left at its default, signalling that inference must
run over raw strings, or an explicit type with already-normalized values
(the two dynamic shapes the untyped Python argument `l` can take). -/
inductive ColumnArg where
  | raw : List String → ColumnArg
  | typed : List Value → CellType → ColumnArg

/-- Embedding of `Column.__init__`, with the inference engine passed as the
parameter `norm` (the Python code reaches it through the imported
`typeinference` module): if `normal_type` is not the `InvalidType` sentinel
the type and data are taken as given, otherwise `norm` is run on the raw
strings. -/
def Column.initGen (norm : List String → CellType × List Value)
    (index : Nat) (name : String) : ColumnArg → Column
  | .typed l t => ⟨index, name, t, l⟩
  | .raw l =>
    let td := norm l
    ⟨index, name, td.1, td.2⟩

/-- `Column(index, name, l)` with `normal_type` left at the sentinel:
inference runs. -/
def Column.fromRaw (index : Nat) (name : String) (l : List String) : Column :=
  Column.initGen normalize_column_type index name (.raw l)

/-- `Column(index, name, l, normal_type)` with an explicit type:
inference is skipped. -/
def Column.fromTyped (index : Nat) (name : String) (l : List Value) (t : CellType) : Column :=
  Column.initGen normalize_column_type index name (.typed l t)

/-- Python `%3i` formatting: the integer right-justified with spaces to a
minimum width of three characters. -/
def pyFmtI3 (n : Nat) : String :=
  let s := toString n
  String.mk (List.replicate (3 - s.length) ' ') ++ s

/-- Python `str()` of the type object a column's `type` attribute holds. -/
def CellType.pyStr : CellType → String
  | .bool => "<type \x27bool\x27>"
  | .int => "<type \x27int\x27>"
  | .float => "<type \x27float\x27>"
  | .date => "<type \x27datetime.date\x27>"
  | .datetime => "<type \x27datetime.datetime\x27>"
  | .time => "<type \x27datetime.time\x27>"
  | .unicode => "<type \x27unicode\x27>"
  | .noneType => "<type \x27NoneType\x27>"

/-- Embedding of `Column.__unicode__`:
`'%3i: %s (%s)' % (self.index, self.name, self.type)`. -/
def Column.unicodeDesc (c : Column) : String :=
  pyFmtI3 c.index ++ ": " ++ c.name ++ " (" ++ c.type.pyStr ++ ")"

/-- The description format as the specification words it, with the index
rendered with no padding: `"{index}: {name} ({type})"`. -/
def Column.specDesc (c : Column) : String :=
  toString c.index ++ ": " ++ c.name ++ " (" ++ c.type.pyStr ++ ")"

/-- A normalized data table: the Python class subclasses `list`; the list
contents are `columns`. -/
structure Table where
  columns : List Column
deriving DecidableEq, Repr

/-- Embedding of `Table._reindex_columns`: set every column's `index` to
its current position. -/
def Table._reindex_columns (t : Table) : Table :=
  ⟨t.columns.enum.map (fun p => { p.2 with index := p.1 })⟩

/-- Embedding of `Table.append`: `list.append` then
`column.index = len(self) - 1`, which is the old length (no other column
shifts). -/
def Table.append (t : Table) (c : Column) : Table :=
  ⟨t.columns ++ [{ c with index := t.columns.length }]⟩

/-- Python `list.insert(i, x)` for a non-negative index: insert before
position `i`, clamping to the end when `i` exceeds the length. -/
def pyListInsert (l : List α) (i : Nat) (a : α) : List α :=
  l.take i ++ a :: l.drop i

/-- Embedding of `Table.insert`: `list.insert` then re-index every column. -/
def Table.insert (t : Table) (i : Nat) (c : Column) : Table :=
  Table._reindex_columns ⟨pyListInsert t.columns i c⟩

/-- Embedding of `Table.extend`: `list.extend` then re-index every column. -/
def Table.extend (t : Table) (cs : List Column) : Table :=
  Table._reindex_columns ⟨t.columns ++ cs⟩

/-- First-occurrence removal by Python `==`, which on a `list` subclass
compares the list contents (a column's values), not the metadata. -/
def removeFirstByValues : List Column → Column → List Column
  | [], _ => []
  | c2 :: rest, c => if c2.values = c.values then rest else c2 :: removeFirstByValues rest c

/-- Embedding of `Table.remove`: `list.remove` (which raises `ValueError`
when no equal element exists) then re-index every column. -/
def Table.remove (t : Table) (c : Column) : Except PyError Table :=
  if t.columns.any (fun c2 => c2.values = c.values) then
    .ok (Table._reindex_columns ⟨removeFirstByValues t.columns c⟩)
  else .error .valueError

/-- Embedding of `Table.sort`: raises `NotImplementedError`; the table
state is returned alongside to record that the call leaves it unchanged. -/
def Table.sortRun (t : Table) : Except PyError Unit × Table :=
  (.error .notImplementedError, t)

/-- Embedding of `Table.reverse`: raises `NotImplementedError`; the table
state is returned alongside to record that the call leaves it unchanged. -/
def Table.reverseRun (t : Table) : Except PyError Unit × Table :=
  (.error .notImplementedError, t)

/-- One iteration of the inner loop of `Table.from_csv`:
`data_columns[i].append(d.strip())`, where the list indexing raises
`IndexError` when `i` is out of range. -/
def accumStep (cols : List (List String)) (i : Nat) (d : String) :
    Except PyError (List (List String)) :=
  match cols.get? i with
  | some buf => .ok (cols.set i (buf ++ [pyStrip d]))
  | none => .error .indexError

/-- The inner loop `for i, d in enumerate(row)` of `Table.from_csv`,
starting at enumeration index `j`; the loop body is wrapped in
`try: ... except KeyError: break`, so a `KeyError` ends the loop and any
other exception propagates. -/
def accumRow (cols : List (List String)) (row : List String) (j : Nat) :
    Except PyError (List (List String)) :=
  match row with
  | [] => .ok cols
  | d :: rest =>
    match accumStep cols j d with
    | .ok cols2 => accumRow cols2 rest (j + 1)
    | .error e => if e = .keyError then .ok cols else .error e

/-- The outer loop `for row in reader` of `Table.from_csv`. -/
def accumRows (cols : List (List String)) : List (List String) →
    Except PyError (List (List String))
  | [] => .ok cols
  | r :: rs => do accumRows (← accumRow cols r 0) rs

/-- Embedding of `Table.from_csv`, taking the header row and the data rows
the external CSV reader yields: build one empty accumulation buffer per
header, run the accumulation loops, then build a heavy `Column` from each
buffer with its header name (`headers[i]` through Python list indexing). -/
def Table.from_csv (headers : List String) (rows : List (List String)) :
    Except PyError Table := do
  let dataColumns := headers.map (fun _ => ([] : List String))
  let filled ← accumRows dataColumns rows
  let columns ← filled.enum.mapM (fun p => do
    let nm ← listIndex headers p.1
    pure (Column.fromRaw p.1 nm p.2))
  pure ⟨columns⟩

/-- Python `v.isoformat()` on a cell value: defined on the three temporal
types and an `AttributeError` on anything else. -/
def Value.isoformat : Value → Except PyError String
  | .date d => .ok d.isoformat
  | .datetime dt => .ok dt.isoformat
  | .time t => .ok t.isoformat
  | _ => .error .attributeError

/-- The per-column body of the first loop of `Table.to_csv`: columns whose
type is `datetime`, `date` or `time` are replaced by
`[v.isoformat() if v != None else None for v in c]`; any other column is
appended to the output as-is. -/
def stringifyColumn (c : Column) : Except PyError (List Value) :=
  if c.type ∈ [CellType.datetime, CellType.date, CellType.time] then
    c.values.mapM (fun v =>
      if v = Value.null then .ok Value.null
      else (Value.isoformat v).map Value.text)
  else .ok c.values

/-- Length of the shortest list, `0` for an empty family: the number of
tuples Python `zip(*cols)` yields. -/
def minLen : List (List α) → Nat
  | [] => 0
  | [c] => c.length
  | c :: rest => min c.length (minLen rest)

/-- Python `zip(*cols)`: transpose a family of lists, truncating to the
shortest; `zip()` of an empty family is the empty list. -/
def pyZip (cols : List (List α)) : List (List α) :=
  (List.range (minLen cols)).map (fun k => cols.filterMap (fun c => c.get? k))

/-- The writer options `Table.to_csv` receives (`**kwargs`); only the line
terminator interacts with the method's own defaults, so it is the one
modelled field. -/
structure CsvOptions where
  lineterminator : Option String
deriving DecidableEq, Repr

/-- The single `writer.writerows` call `Table.to_csv` makes: the rows
handed to the external CSV writer and the effective line terminator. -/
structure WriterCall where
  rows : List (List Value)
  lineterminator : String
deriving DecidableEq, Repr

/-- Embedding of `Table.to_csv`: stringify temporal columns, transpose
columns to rows with `zip`, insert the header row built from the column
names, and write everything with the line terminator defaulting to a
newline unless the caller's options override it. -/
def Table.to_csv (t : Table) (opts : CsvOptions) : Except PyError WriterCall := do
  let outColumns ← t.columns.mapM stringifyColumn
  let rows := pyZip outColumns
  let rows := (t.columns.map (fun c => Value.text c.name)) :: rows
  pure ⟨rows, opts.lineterminator.getD "\n"⟩

/-- The structural mutation operations of `Table`. -/
inductive TableOp where
  | append : Column → TableOp
  | insert : Nat → Column → TableOp
  | extend : List Column → TableOp
  | remove : Column → TableOp

/-- Apply one structural mutation operation. -/
def applyOp (t : Table) : TableOp → Except PyError Table
  | .append c => .ok (t.append c)
  | .insert i c => .ok (t.insert i c)
  | .extend cs => .ok (t.extend cs)
  | .remove c => t.remove c

/-- Apply a sequence of structural mutation operations, stopping at the
first raised exception. -/
def applyOps (t : Table) : List TableOp → Except PyError Table
  | [] => .ok t
  | op :: ops => do applyOps (← applyOp t op) ops

/-- The index invariant: every column's `index` equals its current
position in the owning table. -/
def TableInv (t : Table) : Prop :=
  ∀ i c, t.columns.get? i = some c → c.index = i

/-- Executable check of the index invariant. -/
def tableInvCheck (t : Table) : Bool :=
  t.columns.enum.all (fun p => p.2.index = p.1)

/-- The stripped cells that end up in column `i`'s accumulation buffer:
one entry per data row that has more than `i` values. -/
def bufSpec (rows : List (List String)) (i : Nat) : List String :=
  rows.filterMap (fun r => (r[i]?).map pyStrip)

/-! Generic helper lemmas about lists and monadic maps. -/

theorem enumMap_getElem? (l : List α) (f : Nat × α → β) (i : Nat) :
    (l.enum.map f)[i]? = (l[i]?).map (fun a => f (i, a)) := by
  rw [List.getElem?_map, List.getElem?_enum, Option.map_map]
  rfl

theorem enumMap_length (l : List α) (f : Nat × α → β) :
    (l.enum.map f).length = l.length := by
  simp [List.enum_length]

theorem enumMap_self (l : List α) (f : Nat × α → α)
    (hf : ∀ p, f p = p.2) : l.enum.map f = l := by
  apply List.ext_getElem?
  intro i
  rw [enumMap_getElem?]
  cases l[i]? <;> simp [hf]

theorem optionMapM_ok {f : α → Option β} :
    ∀ {l : List α} {ys : List β}, l.mapM f = some ys →
      ys.length = l.length ∧
      ∀ (i : Nat) (a : α), l[i]? = some a → ∃ b, f a = some b ∧ ys[i]? = some b := by
  intro l
  induction l with
  | nil =>
    intro ys h
    rw [List.mapM_nil] at h
    cases h
    exact ⟨rfl, by intro i a ha; simp at ha⟩
  | cons a l ih =>
    intro ys h
    rw [List.mapM_cons] at h
    cases hfa : f a with
    | none => rw [hfa] at h; simp at h
    | some b =>
      rw [hfa] at h
      cases hm : l.mapM f with
      | none => rw [hm] at h; simp at h
      | some bs =>
        rw [hm] at h
        simp at h
        cases h
        obtain ⟨hlen, hpt⟩ := ih hm
        refine ⟨by simp [hlen], ?_⟩
        intro i x hx
        cases i with
        | zero => simp at hx; cases hx; exact ⟨b, hfa, by simp⟩
        | succ j =>
          simp at hx
          obtain ⟨y, hy, hys⟩ := hpt j x (by simpa using hx)
          exact ⟨y, hy, by simpa using hys⟩

theorem exceptMapM_ok {ε : Type} {f : α → Except ε β} :
    ∀ {l : List α} {ys : List β}, l.mapM f = .ok ys →
      ys.length = l.length ∧
      ∀ (i : Nat) (a : α), l[i]? = some a → ∃ b, f a = .ok b ∧ ys[i]? = some b := by
  intro l
  induction l with
  | nil =>
    intro ys h
    rw [List.mapM_nil] at h
    cases h
    exact ⟨rfl, by intro i a ha; simp at ha⟩
  | cons a l ih =>
    intro ys h
    rw [List.mapM_cons] at h
    cases hfa : f a with
    | error e => rw [hfa] at h; exact Except.noConfusion h
    | ok b =>
      rw [hfa] at h
      cases hm : l.mapM f with
      | error e =>
        rw [hm] at h
        exact Except.noConfusion h
      | ok bs =>
        rw [hm] at h
        have h2 : Except.ok (ε := ε) (b :: bs) = Except.ok ys := h
        cases h2
        obtain ⟨hlen, hpt⟩ := ih hm
        refine ⟨by simp [hlen], ?_⟩
        intro i x hx
        cases i with
        | zero => simp at hx; cases hx; exact ⟨b, hfa, by simp⟩
        | succ j =>
          simp at hx
          obtain ⟨y, hy, hys⟩ := hpt j x (by simpa using hx)
          exact ⟨y, hy, by simpa using hys⟩

/-! Theorems settling the claims, with their supporting lemmas. -/

/-- C1: the source's own comment says non-rectangular data is truncated,
but the handler catches `KeyError` while Python list indexing raises
`IndexError`; on header `["a","b"]` and the single data row
`["1","2","3"]` the import therefore raises `IndexError` instead of
completing with the trailing `"3"` discarded. -/
theorem from_csv_long_row_raises :
    Table.from_csv ["a", "b"] [["1", "2", "3"]] = .error .indexError := by
  rfl

/-- C3: `sort` and `reverse` on any `Table` always raise
`NotImplementedError`, the error is not handled internally, and the failed
call leaves the column sequence (hence every column's index) unchanged. -/
theorem table_sort_reverse_always_raise (t : Table) :
    t.sortRun.1 = .error .notImplementedError ∧ t.sortRun.2 = t ∧
    t.reverseRun.1 = .error .notImplementedError ∧ t.reverseRun.2 = t :=
  ⟨rfl, rfl, rfl, rfl⟩

/-- C6: constructing a `Column` with any explicitly supplied type (a
`normal_type` other than the `InvalidType` sentinel) bypasses inference
entirely: the stored values are exactly the given sequence, the type
attribute is exactly the given type, and the result is independent of the
inference engine, which is therefore never invoked. -/
theorem column_explicit_type_bypasses_inference
    (norm norm2 : List String → CellType × List Value) (i : Nat) (nm : String)
    (l : List Value) (t : CellType) :
    (Column.initGen norm i nm (.typed l t)).values = l ∧
    (Column.initGen norm i nm (.typed l t)).type = t ∧
    Column.initGen norm i nm (.typed l t) = Column.initGen norm2 i nm (.typed l t) ∧
    Column.initGen norm i nm (.typed l t) = Column.fromTyped i nm l t :=
  ⟨rfl, rfl, rfl, rfl⟩

/-- C7: `append` sets the appended column's `index` to the old length of
the table (its new last position) and leaves every pre-existing column —
position, index, name, type and values — unchanged. -/
theorem table_append_frame (t : Table) (c : Column) :
    (t.append c).columns.length = t.columns.length + 1 ∧
    (t.append c).columns.getLast? = some { c with index := t.columns.length } ∧
    ∀ i, i < t.columns.length → (t.append c).columns[i]? = t.columns[i]? := by
  refine ⟨by simp [Table.append], by simp [Table.append, List.getLast?_concat], ?_⟩
  intro i hi
  simp [Table.append, List.getElem?_append, hi]

/-- C7 witness: appending to a concrete one-column table. -/
theorem table_append_frame_app :
    0 < (Table.mk [⟨0, "a", CellType.int, []⟩]).columns.length ∧
    ((Table.mk [⟨0, "a", CellType.int, []⟩]).append
        ⟨7, "b", CellType.unicode, []⟩).columns[0]? =
      (Table.mk [⟨0, "a", CellType.int, []⟩]).columns[0]? :=
  ⟨by decide,
    (table_append_frame (Table.mk [⟨0, "a", CellType.int, []⟩])
      ⟨7, "b", CellType.unicode, []⟩).2.2 0 (by decide)⟩

/-- C8 counterexample: for the concrete column `0: a (unicode)` the actual
description pads the index with spaces to width three, so it is not the
unpadded `"{index}: {name} ({type})"` the claim states. -/
theorem column_desc_counterexample :
    Column.unicodeDesc ⟨0, "a", CellType.unicode, []⟩ ≠
      Column.specDesc ⟨0, "a", CellType.unicode, []⟩ := by
  decide

/-- C8 (amended): the human-readable description is the index
right-justified with spaces to a minimum width of three characters,
followed by `": "`, the name, a space, and the type in parentheses. -/
theorem column_desc_padded_format (c : Column) :
    c.unicodeDesc =
      String.mk (List.leftpad 3 ' ' (toString c.index).toList) ++ ": " ++
        c.name ++ " (" ++ c.type.pyStr ++ ")" := by
  have h : ∀ s : String,
      String.mk (List.replicate (3 - s.length) ' ') ++ s =
        String.mk (List.leftpad 3 ' ' s.toList) := by
    intro s
    cases s
    rfl
  unfold Column.unicodeDesc pyFmtI3
  rw [h]

theorem reindex_inv (t : Table) : TableInv (Table._reindex_columns t) := by
  intro i c h
  unfold Table._reindex_columns at h
  rw [List.get?_eq_getElem?] at h
  rw [enumMap_getElem?] at h
  cases hc : t.columns[i]? with
  | none => rw [hc] at h; simp at h
  | some a =>
    rw [hc] at h
    simp at h
    rw [← h]

theorem append_inv {t : Table} (ht : TableInv t) (c : Column) :
    TableInv (t.append c) := by
  intro i c2 h
  rw [List.get?_eq_getElem?] at h
  unfold Table.append at h
  rw [List.getElem?_append] at h
  by_cases hi : i < t.columns.length
  · rw [if_pos hi] at h
    exact ht i c2 (by rw [List.get?_eq_getElem?]; exact h)
  · rw [if_neg hi] at h
    cases hd : i - t.columns.length with
    | zero =>
      rw [hd] at h
      simp at h
      rw [← h]
      simp
      omega
    | succ m => rw [hd] at h; simp at h

theorem applyOp_inv {t t2 : Table} {op : TableOp} (ht : TableInv t)
    (h : applyOp t op = .ok t2) : TableInv t2 := by
  cases op with
  | append c =>
    have h2 : Except.ok (ε := PyError) (t.append c) = Except.ok t2 := h
    cases h2
    exact append_inv ht c
  | insert i c =>
    have h2 : Except.ok (ε := PyError) (t.insert i c) = Except.ok t2 := h
    cases h2
    exact reindex_inv _
  | extend cs =>
    have h2 : Except.ok (ε := PyError) (t.extend cs) = Except.ok t2 := h
    cases h2
    exact reindex_inv _
  | remove c =>
    simp only [applyOp] at h
    unfold Table.remove at h
    by_cases hmem : t.columns.any (fun c2 => c2.values = c.values)
    · rw [if_pos hmem] at h
      have h2 : Except.ok (ε := PyError)
          (Table._reindex_columns ⟨removeFirstByValues t.columns c⟩) = Except.ok t2 := h
      cases h2
      exact reindex_inv _
    · rw [if_neg hmem] at h
      exact Except.noConfusion h

/-- C2: starting from any table satisfying the index invariant, any
sequence of the structural mutation operations `append`, `insert`,
`extend`, `remove` keeps the invariant: after each operation every
column's `index` equals its position in the table. -/
theorem table_ops_preserve_index_invariant (t : Table) (ht : TableInv t)
    (ops : List TableOp) (t2 : Table) (h : applyOps t ops = .ok t2) :
    TableInv t2 := by
  induction ops generalizing t with
  | nil =>
    have h2 : Except.ok (ε := PyError) t = Except.ok t2 := h
    cases h2
    exact ht
  | cons op ops ih =>
    unfold applyOps at h
    cases hop : applyOp t op with
    | error e => rw [hop] at h; exact Except.noConfusion h
    | ok t1 =>
      rw [hop] at h
      exact ih t1 (applyOp_inv ht hop) h

theorem tableInvCheck_eq_true_iff (t : Table) :
    tableInvCheck t = true ↔ TableInv t := by
  unfold tableInvCheck TableInv
  rw [List.all_eq_true]
  constructor
  · intro hall i c hc
    rw [List.get?_eq_getElem?] at hc
    have hm : (i, c) ∈ t.columns.enum := by
      rw [List.mem_iff_getElem?]
      exact ⟨i, by rw [List.getElem?_enum, hc]; rfl⟩
    simpa using hall _ hm
  · intro hinv p hp
    rw [List.mem_iff_getElem?] at hp
    obtain ⟨n, hn⟩ := hp
    rw [List.getElem?_enum] at hn
    cases hc : t.columns[n]? with
    | none => rw [hc] at hn; simp at hn
    | some a =>
      rw [hc] at hn
      simp at hn
      subst hn
      simpa using hinv n a (by rw [List.get?_eq_getElem?, hc])

/-- C2 witness: inserting a new column at position 0 of a concrete
three-column table re-indexes all four columns to `0,1,2,3` in final
order. -/
theorem table_ops_preserve_index_invariant_app :
    applyOps ⟨[⟨0, "a", CellType.int, []⟩, ⟨1, "b", CellType.int, []⟩,
        ⟨2, "c", CellType.int, []⟩]⟩
      [TableOp.insert 0 ⟨9, "z", CellType.unicode, []⟩] =
      .ok ⟨[⟨0, "z", CellType.unicode, []⟩, ⟨1, "a", CellType.int, []⟩,
        ⟨2, "b", CellType.int, []⟩, ⟨3, "c", CellType.int, []⟩]⟩ ∧
    TableInv ⟨[⟨0, "z", CellType.unicode, []⟩, ⟨1, "a", CellType.int, []⟩,
      ⟨2, "b", CellType.int, []⟩, ⟨3, "c", CellType.int, []⟩]⟩ :=
  ⟨by rfl,
    table_ops_preserve_index_invariant
      ⟨[⟨0, "a", CellType.int, []⟩, ⟨1, "b", CellType.int, []⟩,
        ⟨2, "c", CellType.int, []⟩]⟩
      ((tableInvCheck_eq_true_iff _).mp (by decide))
      [TableOp.insert 0 ⟨9, "z", CellType.unicode, []⟩] _ (by rfl)⟩

theorem stringifyColumn_length {c : Column} {vs : List Value}
    (h : stringifyColumn c = .ok vs) : vs.length = c.values.length := by
  unfold stringifyColumn at h
  by_cases ht : c.type ∈ [CellType.datetime, CellType.date, CellType.time]
  · rw [if_pos ht] at h
    exact (exceptMapM_ok h).1
  · rw [if_neg ht] at h
    have h2 : Except.ok (ε := PyError) c.values = Except.ok vs := h
    cases h2
    rfl

theorem to_csv_shape {t : Table} {opts : CsvOptions} {w : WriterCall}
    (hw : t.to_csv opts = .ok w) :
    ∃ oc, t.columns.mapM stringifyColumn = .ok oc ∧
      w = ⟨(t.columns.map (fun c => Value.text c.name)) :: pyZip oc,
        opts.lineterminator.getD "\n"⟩ := by
  unfold Table.to_csv at hw
  cases hoc : t.columns.mapM stringifyColumn with
  | error e => rw [hoc] at hw; exact Except.noConfusion hw
  | ok oc =>
    rw [hoc] at hw
    have h2 : Except.ok (ε := PyError)
        (WriterCall.mk ((t.columns.map (fun c => Value.text c.name)) :: pyZip oc)
          (opts.lineterminator.getD "\n")) = Except.ok w := hw
    cases h2
    exact ⟨oc, rfl, rfl⟩

theorem minLen_const {n : Nat} : ∀ {cols : List (List α)}, cols ≠ [] →
    (∀ c ∈ cols, c.length = n) → minLen cols = n := by
  intro cols
  induction cols with
  | nil => intro h; exact absurd rfl h
  | cons c rest ih =>
    intro _ hall
    cases rest with
    | nil => simpa [minLen] using hall c (by simp)
    | cons c2 rest2 =>
      have h1 : c.length = n := hall c (by simp)
      have h2 : minLen (c2 :: rest2) = n := by
        apply ih (by simp)
        intro x hx
        exact hall x (by simp [hx])
      simp [minLen, h1, h2]

theorem filterMap_get?_eq_map (d : α) :
    ∀ (cols : List (List α)) (k : Nat), (∀ c ∈ cols, k < c.length) →
      cols.filterMap (fun c => c.get? k) = cols.map (fun c => c.getD k d) := by
  intro cols
  induction cols with
  | nil => intro k h; rfl
  | cons xs rest ih =>
    intro k h
    have hk : k < xs.length := h xs (by simp)
    have hg : xs.get? k = some (xs.get ⟨k, hk⟩) := by
      rw [List.get?_eq_getElem?]
      exact List.getElem?_eq_getElem hk
    have hgd : xs.getD k d = xs.get ⟨k, hk⟩ := by
      rw [List.getD_eq_getElem?_getD, List.getElem?_eq_getElem hk]
      rfl
    rw [List.filterMap_cons, hg, List.map_cons, hgd]
    rw [ih k (fun x hx => h x (by simp [hx]))]

/-- C4: `to_csv` replaces, in every column whose declared type is one of
the temporal kinds, each non-null value by its ISO-8601 string
(`v.isoformat()`) while null values stay the null marker; every column of
any other type is passed to the writer with its values unchanged. -/
theorem to_csv_temporal_iso (t : Table) (opts : CsvOptions) (w : WriterCall)
    (hw : t.to_csv opts = .ok w) (c : Column) (hc : c ∈ t.columns) :
    ∃ vs, stringifyColumn c = .ok vs ∧
      (c.type ∈ [CellType.datetime, CellType.date, CellType.time] →
        vs.length = c.values.length ∧
        ∀ (k : Nat) (v : Value), c.values[k]? = some v →
          (v = Value.null → vs[k]? = some Value.null) ∧
          (v ≠ Value.null → ∃ s, v.isoformat = .ok s ∧ vs[k]? = some (Value.text s))) ∧
      (c.type ∉ [CellType.datetime, CellType.date, CellType.time] → vs = c.values) := by
  obtain ⟨oc, hoc, -⟩ := to_csv_shape hw
  rw [List.mem_iff_getElem?] at hc
  obtain ⟨i, hi⟩ := hc
  obtain ⟨-, hpt⟩ := exceptMapM_ok hoc
  obtain ⟨vs, hvs, -⟩ := hpt i c hi
  refine ⟨vs, hvs, ?_, ?_⟩
  · intro htype
    unfold stringifyColumn at hvs
    rw [if_pos htype] at hvs
    obtain ⟨hlen, hpt2⟩ := exceptMapM_ok hvs
    refine ⟨hlen, ?_⟩
    intro k v hkv
    obtain ⟨b, hb, hbk⟩ := hpt2 k v hkv
    constructor
    · intro hnull
      subst hnull
      rw [if_pos rfl] at hb
      have h2 : Except.ok (ε := PyError) Value.null = Except.ok b := hb
      cases h2
      exact hbk
    · intro hnn
      rw [if_neg hnn] at hb
      cases hiso : v.isoformat with
      | error e => rw [hiso] at hb; exact Except.noConfusion hb
      | ok s =>
        rw [hiso] at hb
        have h2 : Except.ok (ε := PyError) (Value.text s) = Except.ok b := hb
        cases h2
        exact ⟨s, rfl, hbk⟩
  · intro htype
    unfold stringifyColumn at hvs
    rw [if_neg htype] at hvs
    have h2 : Except.ok (ε := PyError) c.values = Except.ok vs := hvs
    cases h2
    rfl

/-- C4 witness: a one-column table of type `date` with one value and one
null. -/
theorem to_csv_temporal_iso_app :
    (Table.mk [⟨0, "d", CellType.date, [Value.date ⟨2020, 1, 2⟩, Value.null]⟩]).to_csv
        ⟨none⟩ =
      .ok ⟨[[Value.text "d"], [Value.text "2020-01-02"], [Value.null]], "\n"⟩ ∧
    (⟨0, "d", CellType.date, [Value.date ⟨2020, 1, 2⟩, Value.null]⟩ : Column) ∈
      (Table.mk [⟨0, "d", CellType.date, [Value.date ⟨2020, 1, 2⟩, Value.null]⟩]).columns ∧
    ∃ vs, stringifyColumn ⟨0, "d", CellType.date, [Value.date ⟨2020, 1, 2⟩, Value.null]⟩ =
        .ok vs ∧
      ((⟨0, "d", CellType.date, [Value.date ⟨2020, 1, 2⟩, Value.null]⟩ : Column).type ∈
          [CellType.datetime, CellType.date, CellType.time] →
        vs.length = (⟨0, "d", CellType.date,
            [Value.date ⟨2020, 1, 2⟩, Value.null]⟩ : Column).values.length ∧
        ∀ (k : Nat) (v : Value),
          (⟨0, "d", CellType.date,
              [Value.date ⟨2020, 1, 2⟩, Value.null]⟩ : Column).values[k]? = some v →
          (v = Value.null → vs[k]? = some Value.null) ∧
          (v ≠ Value.null → ∃ s, v.isoformat = .ok s ∧ vs[k]? = some (Value.text s))) ∧
      ((⟨0, "d", CellType.date, [Value.date ⟨2020, 1, 2⟩, Value.null]⟩ : Column).type ∉
          [CellType.datetime, CellType.date, CellType.time] →
        vs = (⟨0, "d", CellType.date,
          [Value.date ⟨2020, 1, 2⟩, Value.null]⟩ : Column).values) :=
  ⟨by rfl, by decide,
    to_csv_temporal_iso
      (Table.mk [⟨0, "d", CellType.date, [Value.date ⟨2020, 1, 2⟩, Value.null]⟩]) ⟨none⟩
      ⟨[[Value.text "d"], [Value.text "2020-01-02"], [Value.null]], "\n"⟩ (by rfl)
      ⟨0, "d", CellType.date, [Value.date ⟨2020, 1, 2⟩, Value.null]⟩ (by decide)⟩

/-- C5: for a non-empty table whose columns all have length `n`, `to_csv`
hands the writer exactly `n + 1` rows — the header row of column names
first, then for each `k < n` the tuple of the `k`-th entry of each
(stringified) column in column order — and the line terminator is the
newline unless the caller's options override it. -/
theorem to_csv_row_structure (t : Table) (opts : CsvOptions) (n : Nat) (w : WriterCall)
    (hne : t.columns ≠ [])
    (hlen : ∀ c ∈ t.columns, c.values.length = n)
    (hw : t.to_csv opts = .ok w) :
    w.lineterminator = opts.lineterminator.getD "\n" ∧
    w.rows.length = n + 1 ∧
    w.rows[0]? = some (t.columns.map (fun c => Value.text c.name)) ∧
    ∃ oc, t.columns.mapM stringifyColumn = .ok oc ∧
      (∀ vs ∈ oc, vs.length = n) ∧
      ∀ k, k < n → w.rows[k + 1]? = some (oc.map (fun vs => vs.getD k Value.null)) := by
  obtain ⟨oc, hoc, hshape⟩ := to_csv_shape hw
  subst hshape
  obtain ⟨hoclen, hpt⟩ := exceptMapM_ok hoc
  have hvslen : ∀ vs ∈ oc, vs.length = n := by
    intro vs hvs
    rw [List.mem_iff_getElem?] at hvs
    obtain ⟨i, hi⟩ := hvs
    have hilt : i < t.columns.length := by
      rw [← hoclen]
      exact (List.getElem?_eq_some.mp hi).1
    obtain ⟨ci, hci⟩ : ∃ ci, t.columns[i]? = some ci :=
      ⟨t.columns[i], List.getElem?_eq_getElem hilt⟩
    obtain ⟨b, hb, hbi⟩ := hpt i ci hci
    rw [hi] at hbi
    cases hbi
    rw [stringifyColumn_length hb]
    exact hlen ci (by rw [List.mem_iff_getElem?]; exact ⟨i, hci⟩)
  have hocne : oc ≠ [] := by
    intro hnil
    apply hne
    have : t.columns.length = 0 := by rw [← hoclen, hnil]; rfl
    exact List.eq_nil_of_length_eq_zero this
  have hmin : minLen oc = n := minLen_const hocne hvslen
  refine ⟨rfl, ?_, by simp, oc, hoc, hvslen, ?_⟩
  · simp [pyZip, hmin]
  · intro k hk
    have hz : (pyZip oc)[k]? = some (oc.map (fun vs => vs.getD k Value.null)) := by
      unfold pyZip
      rw [List.getElem?_map, hmin, List.getElem?_range hk]
      simp only [Option.map_some']
      rw [filterMap_get?_eq_map Value.null oc k
        (fun vs hvs => by rw [hvslen vs hvs]; exact hk)]
    simpa [List.getElem?_cons_succ] using hz

/-- C5 witness: a concrete two-column, two-row table with an overriding
line terminator. -/
theorem to_csv_row_structure_app :
    (Table.mk [⟨0, "a", CellType.int, [Value.int 1, Value.int 2]⟩,
        ⟨1, "b", CellType.unicode, [Value.text "x", Value.null]⟩]).columns ≠ [] ∧
    (∀ c ∈ (Table.mk [⟨0, "a", CellType.int, [Value.int 1, Value.int 2]⟩,
        ⟨1, "b", CellType.unicode, [Value.text "x", Value.null]⟩]).columns,
      c.values.length = 2) ∧
    ((⟨[[Value.text "a", Value.text "b"], [Value.int 1, Value.text "x"],
        [Value.int 2, Value.null]], "\x0d\n"⟩ : WriterCall).lineterminator =
      (CsvOptions.mk (some "\x0d\n")).lineterminator.getD "\n" ∧
    ([[Value.text "a", Value.text "b"], [Value.int 1, Value.text "x"],
        [Value.int 2, Value.null]] : List (List Value)).length = 2 + 1 ∧
    ([[Value.text "a", Value.text "b"], [Value.int 1, Value.text "x"],
        [Value.int 2, Value.null]] : List (List Value))[0]? =
      some ((Table.mk [⟨0, "a", CellType.int, [Value.int 1, Value.int 2]⟩,
        ⟨1, "b", CellType.unicode, [Value.text "x", Value.null]⟩]).columns.map
          (fun c => Value.text c.name)) ∧
    ∃ oc, (Table.mk [⟨0, "a", CellType.int, [Value.int 1, Value.int 2]⟩,
        ⟨1, "b", CellType.unicode, [Value.text "x", Value.null]⟩]).columns.mapM
          stringifyColumn = .ok oc ∧
      (∀ vs ∈ oc, vs.length = 2) ∧
      ∀ k, k < 2 →
        ([[Value.text "a", Value.text "b"], [Value.int 1, Value.text "x"],
            [Value.int 2, Value.null]] : List (List Value))[k + 1]? =
          some (oc.map (fun vs => vs.getD k Value.null))) :=
  ⟨by decide, by decide,
    to_csv_row_structure
      (Table.mk [⟨0, "a", CellType.int, [Value.int 1, Value.int 2]⟩,
        ⟨1, "b", CellType.unicode, [Value.text "x", Value.null]⟩])
      (CsvOptions.mk (some "\x0d\n")) 2
      ⟨[[Value.text "a", Value.text "b"], [Value.int 1, Value.text "x"],
        [Value.int 2, Value.null]], "\x0d\n"⟩
      (by decide) (by decide) (by rfl)⟩

theorem exceptBind_ok {ε α β : Type} (a : α) (f : α → Except ε β) :
    (Except.ok a >>= f) = f a := rfl

theorem exceptPure_eq_ok {ε α : Type} (a : α) :
    (pure a : Except ε α) = Except.ok a := rfl

theorem exceptPure_bind {ε α β : Type} (a : α) (f : α → Except ε β) :
    ((pure a : Except ε α) >>= f) = f a := rfl

theorem bufSpec_cons (r : List String) (rs : List (List String)) (i : Nat) :
    bufSpec (r :: rs) i = ((r[i]?).map pyStrip).toList ++ bufSpec rs i := by
  unfold bufSpec
  rw [List.filterMap_cons]
  cases (r[i]?) <;> simp

theorem bufSpec_length (rows : List (List String)) (i : Nat) :
    (bufSpec rows i).length = (rows.filter (fun r => i < r.length)).length := by
  induction rows with
  | nil => rfl
  | cons r rs ih =>
    rw [bufSpec_cons, List.filter_cons]
    by_cases hi : i < r.length
    · obtain ⟨v, hv⟩ : ∃ v, r[i]? = some v := ⟨r.get ⟨i, hi⟩, List.getElem?_eq_getElem hi⟩
      rw [hv]
      simp [hi, ih]
    · rw [List.getElem?_eq_none (by omega)]
      simp [hi, ih]

theorem tryCandidate_length {p : String → Option Value} {l : List String}
    {vs : List Value} (h : tryCandidate p l = some vs) : vs.length = l.length :=
  (optionMapM_ok h).1

theorem runCascade_length (l : List String) :
    ∀ cands, ((runCascade l cands).2).length = l.length := by
  intro cands
  induction cands with
  | nil => simp [runCascade]
  | cons tp rest ih =>
    cases tp with
    | mk t p =>
      cases htc : tryCandidate p l with
      | none => simpa [runCascade, htc] using ih
      | some vs => simpa [runCascade, htc] using tryCandidate_length htc

theorem normalize_column_type_length (l : List String) :
    ((normalize_column_type l).2).length = l.length := by
  unfold normalize_column_type
  by_cases h : l.all isNullToken
  · rw [if_pos h]; simp
  · rw [if_neg h]; exact runCascade_length l CANDIDATES

theorem fromRaw_values (i : Nat) (nm : String) (l : List String) :
    (Column.fromRaw i nm l).values = (normalize_column_type l).2 := rfl

theorem accumRow_ok (r : List String) :
    ∀ (cols : List (List String)) (j : Nat), j + r.length ≤ cols.length →
      accumRow cols r j = .ok (cols.enum.map (fun p =>
        p.2 ++ ((if j ≤ p.1 then (r[p.1 - j]?).map pyStrip else none)).toList)) := by
  induction r with
  | nil =>
    intro cols j h
    have h0 : accumRow cols [] j = .ok cols := rfl
    rw [h0]
    congr 1
    symm
    apply enumMap_self
    intro p
    split <;> simp
  | cons d rest ih =>
    intro cols j h
    have hj : j < cols.length := by simp at h; omega
    obtain ⟨buf, hbuf⟩ : ∃ buf, cols[j]? = some buf :=
      ⟨cols.get ⟨j, hj⟩, List.getElem?_eq_getElem hj⟩
    have hstep : accumStep cols j d = .ok (cols.set j (buf ++ [pyStrip d])) := by
      unfold accumStep
      rw [List.get?_eq_getElem?, hbuf]
    rw [accumRow, hstep]
    show accumRow (cols.set j (buf ++ [pyStrip d])) rest (j + 1) = _
    rw [ih (cols.set j (buf ++ [pyStrip d])) (j + 1)
      (by rw [List.length_set]; simp at h; omega)]
    congr 1
    apply List.ext_getElem?
    intro k
    rw [enumMap_getElem?, enumMap_getElem?, List.getElem?_set]
    by_cases hkj : j = k
    · subst hkj
      rw [if_pos rfl, if_pos hj, hbuf]
      have h1 : ¬ (j + 1 ≤ j) := by omega
      simp [h1]
    · rw [if_neg hkj]
      cases hck : cols[k]? with
      | none => simp
      | some x =>
        simp only [Option.map_some']
        by_cases hjk : j + 1 ≤ k
        · have hjk2 : j ≤ k := by omega
          have hsub : k - j = (k - (j + 1)) + 1 := by omega
          simp [hjk, hjk2, hsub, List.getElem?_cons_succ]
        · have hjk2 : ¬ j ≤ k := by omega
          simp [hjk, hjk2]

theorem accumRows_ok :
    ∀ (rows : List (List String)) (cols : List (List String)),
      (∀ r ∈ rows, r.length ≤ cols.length) →
      accumRows cols rows =
        .ok (cols.enum.map (fun p => p.2 ++ bufSpec rows p.1)) := by
  intro rows
  induction rows with
  | nil =>
    intro cols _
    have h0 : accumRows cols [] = .ok cols := rfl
    rw [h0]
    congr 1
    symm
    apply enumMap_self
    intro p
    simp [bufSpec]
  | cons r rs ih =>
    intro cols h
    have hr : r.length ≤ cols.length := h r (by simp)
    have h0 := accumRow_ok r cols 0 (by omega)
    rw [accumRows, h0, exceptBind_ok]
    rw [ih _ (by
      intro r2 hr2
      rw [enumMap_length]
      exact h r2 (by simp [hr2]))]
    congr 1
    apply List.ext_getElem?
    intro k
    rw [enumMap_getElem?, enumMap_getElem?, enumMap_getElem?]
    cases hck : cols[k]? with
    | none => simp
    | some x =>
      simp only [Option.map_some']
      simp [bufSpec_cons, List.append_assoc, Nat.zero_le, Nat.sub_zero]

theorem buildColumns_ok (headers : List String) :
    ∀ (filled : List (List String)) (k : Nat), k + filled.length ≤ headers.length →
      (filled.enumFrom k).mapM (fun p => do
          let nm ← listIndex headers p.1
          pure (Column.fromRaw p.1 nm p.2)) =
        .ok ((filled.enumFrom k).map (fun p =>
          Column.fromRaw p.1 (headers.getD p.1 "") p.2)) := by
  intro filled
  induction filled with
  | nil => intro k _; rfl
  | cons buf rest ih =>
    intro k h
    have hk : k < headers.length := by simp at h; omega
    obtain ⟨nm, hnm⟩ : ∃ nm, headers[k]? = some nm :=
      ⟨headers.get ⟨k, hk⟩, List.getElem?_eq_getElem hk⟩
    have hli : listIndex headers k = .ok nm := by
      unfold listIndex
      rw [List.get?_eq_getElem?, hnm]
    have hgd : headers.getD k "" = nm := by
      rw [List.getD_eq_getElem?_getD, hnm]
      rfl
    rw [List.enumFrom_cons, List.mapM_cons]
    simp only [hli, exceptBind_ok, exceptPure_bind]
    rw [ih (k + 1) (by simp at h; omega)]
    rw [exceptBind_ok]
    rw [List.map_cons, hgd]
    rfl

theorem from_csv_ok (headers : List String) (rows : List (List String))
    (h : ∀ r ∈ rows, r.length ≤ headers.length) :
    Table.from_csv headers rows =
      .ok ⟨headers.enum.map (fun p =>
        Column.fromRaw p.1 p.2 (bufSpec rows p.1))⟩ := by
  have hstart : Table.from_csv headers rows = (do
      let filled ← accumRows (headers.map (fun _ => ([] : List String))) rows
      let columns ← filled.enum.mapM (fun p => do
        let nm ← listIndex headers p.1
        pure (Column.fromRaw p.1 nm p.2))
      pure (⟨columns⟩ : Table)) := rfl
  have hacc := accumRows_ok rows (headers.map (fun _ => ([] : List String)))
    (by intro r hr; rw [List.length_map]; exact h r hr)
  rw [hstart, hacc, exceptBind_ok]
  have hfill : (headers.map (fun _ => ([] : List String))).enum.map
      (fun p => p.2 ++ bufSpec rows p.1) =
      headers.enum.map (fun p => bufSpec rows p.1) := by
    apply List.ext_getElem?
    intro k
    rw [enumMap_getElem?, enumMap_getElem?, List.getElem?_map]
    cases headers[k]? <;> simp
  rw [hfill]
  have hbuild := buildColumns_ok headers
    (headers.enum.map (fun p => bufSpec rows p.1)) 0
    (by rw [enumMap_length]; omega)
  rw [show (headers.enum.map (fun p => bufSpec rows p.1)).enum =
      (headers.enum.map (fun p => bufSpec rows p.1)).enumFrom 0 from rfl]
  rw [hbuild, exceptBind_ok, exceptPure_eq_ok]
  congr 1
  congr 1
  rw [show ((headers.enum.map (fun p => bufSpec rows p.1)).enumFrom 0) =
      ((headers.enum.map (fun p => bufSpec rows p.1)).enum) from rfl]
  apply List.ext_getElem?
  intro k
  rw [List.getElem?_map, enumMap_getElem?, List.getElem?_enum, enumMap_getElem?]
  cases hck : headers[k]? with
  | none => simp
  | some hv =>
    have hgd : headers.getD k "" = hv := by
      rw [List.getD_eq_getElem?_getD, hck]
      rfl
    simp [hgd, hck]

/-- C9: when every data row has at most as many values as the header row,
`from_csv` raises no error and performs no padding: each column `i`
receives exactly one (stripped) value per row having more than `i` values,
so columns can end up with unequal lengths. -/
theorem from_csv_short_rows_no_error (headers : List String)
    (rows : List (List String))
    (h : ∀ r ∈ rows, r.length ≤ headers.length) :
    ∃ t, Table.from_csv headers rows = .ok t ∧
      t.columns.length = headers.length ∧
      ∀ (i : Nat), i < headers.length → ∃ c, t.columns[i]? = some c ∧
        c.values.length = (rows.filter (fun r => i < r.length)).length := by
  refine ⟨_, from_csv_ok headers rows h, ?_, ?_⟩
  · rw [enumMap_length]
  · intro i hi
    obtain ⟨hv, hhv⟩ : ∃ hv, headers[i]? = some hv :=
      ⟨headers.get ⟨i, hi⟩, List.getElem?_eq_getElem hi⟩
    refine ⟨Column.fromRaw i hv (bufSpec rows i), ?_, ?_⟩
    · show (headers.enum.map _)[i]? = _
      rw [enumMap_getElem?, hhv]
      rfl
    · rw [fromRaw_values, normalize_column_type_length, bufSpec_length]

/-- C9 witness: header `["a","b"]` with the single short row `["1"]` —
the import succeeds and the columns have the unequal lengths 1 and 0. -/
theorem from_csv_short_rows_no_error_app :
    (∀ r ∈ [["1"]], List.length r ≤ (["a", "b"] : List String).length) ∧
    ∃ t, Table.from_csv ["a", "b"] [["1"]] = .ok t ∧
      t.columns.length = (["a", "b"] : List String).length ∧
      ∀ (i : Nat), i < (["a", "b"] : List String).length →
        ∃ c, t.columns[i]? = some c ∧
          c.values.length =
            (([["1"]] : List (List String)).filter (fun r => i < r.length)).length :=
  ⟨by decide, from_csv_short_rows_no_error ["a", "b"] [["1"]] (by decide)⟩

/-- C10: header names are taken verbatim from the header row, while every
data cell is whitespace-stripped before it is accumulated into the buffer
handed to type inference: column `i` is built by `Column.fromRaw` from
exactly the stripped cells at position `i` of the data rows. -/
theorem from_csv_strip_cells_headers_verbatim (headers : List String)
    (rows : List (List String))
    (h : ∀ r ∈ rows, r.length ≤ headers.length) :
    ∃ t, Table.from_csv headers rows = .ok t ∧
      t.columns.map (fun c => c.name) = headers ∧
      ∀ (i : Nat) (hv : String), headers[i]? = some hv →
        t.columns[i]? = some (Column.fromRaw i hv
          (rows.filterMap (fun r => (r[i]?).map pyStrip))) := by
  refine ⟨_, from_csv_ok headers rows h, ?_, ?_⟩
  · apply List.ext_getElem?
    intro k
    rw [List.getElem?_map, enumMap_getElem?]
    cases headers[k]? <;> rfl
  · intro i hv hhv
    show (headers.enum.map _)[i]? = _
    rw [enumMap_getElem?, hhv]
    rfl

/-- C10 witness: a header with surrounding spaces is kept verbatim as the
column name, while the data cell `" 1x "` is stripped to `"1x"` before
inference. -/
theorem from_csv_strip_cells_headers_verbatim_app :
    (∀ r ∈ [[" 1x "]], List.length r ≤ ([" a ", "b"] : List String).length) ∧
    ∃ t, Table.from_csv [" a ", "b"] [[" 1x "]] = .ok t ∧
      t.columns.map (fun c => c.name) = [" a ", "b"] ∧
      ∀ (i : Nat) (hv : String), ([" a ", "b"] : List String)[i]? = some hv →
        t.columns[i]? = some (Column.fromRaw i hv
          (([[" 1x "]] : List (List String)).filterMap
            (fun r => (r[i]?).map pyStrip))) :=
  ⟨by decide,
    from_csv_strip_cells_headers_verbatim [" a ", "b"] [[" 1x "]] (by decide)⟩
